import Mathlib

/-!
Shallow embedding of the memory-game controller in `src/js/script.js`
(classes `MemoryButton`, `UIHandler`, `GameEngine`).

Modelling conventions:
* DOM state of a button element is captured by the fields of `MemoryButton`:
  `labelShown` models whether `textContent` equals the order number (vs `""`),
  `clickEnabled` models whether `element.onclick` is set, `positionAbsolute`
  and `pos` model `style.position` / `style.left`/`style.top`.
* `Math.random()` is modelled as an explicit stream `Env.rand : Nat → ℚ` of
  draws; the engine state carries the index `rngIdx` of the next draw.
  `window.innerWidth` / `window.innerHeight` live in `Env` as well.
* `setTimeout` is modelled by appending a `TimerCb` descriptor to the
  `pending` queue; `fireNext` runs the earliest pending callback
  (the browser event loop).  `setTimeout` handles are never cleared by the
  source, so `resetGame`/`startGame` leave `pending` untouched, exactly as
  the code does.
* The externalized message strings (`MESSAGES` from
  `../lang/messages/en/user.js`, an external collaborator per the spec) are
  modelled as the opaque tokens of `GameMessage`; `status` models the
  `textContent` of the message display element.
* `scrambleIterations` is a ghost instrumentation counter, incremented once
  per relocation pass of `scrambleSequence` (it changes no behaviour).
-/

inductive GameMessage where
  | empty
  | invalidInput
  | excellentMemory
  | wrongOrder
deriving DecidableEq

/-- A scheduled `setTimeout` callback of `GameEngine`:
`startScramble n` is the closure `() => this.scrambleSequence(n, n)`
scheduled by `startGame`; `scrambleStep n r` is the closure
`() => this.scrambleSequence(n, remaining - 1)` scheduled by
`scrambleSequence` (with `r` the already-decremented value it will pass). -/
inductive TimerCb where
  | startScramble (n : Nat)
  | scrambleStep (n : Nat) (remaining : Nat)
deriving DecidableEq

/-- The browser environment: viewport size and the `Math.random()` stream. -/
structure Env where
  innerWidth : Int
  innerHeight : Int
  rand : Nat → ℚ

/-- One `MemoryButton` instance together with the state of its DOM element. -/
structure MemoryButton where
  id : Nat
  color : Int
  order : Nat
  labelShown : Bool
  clickEnabled : Bool
  positionAbsolute : Bool
  pos : Option (Int × Int)
deriving DecidableEq

/-- The mutable state of the `GameEngine` instance (plus the timer queue and
the position in the random stream). -/
structure EngineState where
  buttons : List MemoryButton
  expectedOrder : Nat
  isScrambling : Bool
  status : GameMessage
  pending : List TimerCb
  rngIdx : Nat
  scrambleIterations : Nat
deriving DecidableEq

/-- The state right after `new GameEngine()`. -/
def initEngine : EngineState :=
  { buttons := [], expectedOrder := 1, isScrambling := false,
    status := GameMessage.empty, pending := [], rngIdx := 0,
    scrambleIterations := 0 }

/-- `GameEngine.resetGame`: clears the game area and buttons, resets
`expectedOrder` and the scrambling flag.  Pending timers are NOT cleared
(the source never calls `clearTimeout`). -/
def resetGame (s : EngineState) : EngineState :=
  { s with buttons := [], expectedOrder := 1, isScrambling := false }

/-- One iteration of the loop body of `GameEngine.generateButtons`:
`new MemoryButton('btn-i', randomColor, i)` for `i = k + 1`, consuming one
random draw for the color.  `createHTMLElement` sets `textContent` to the
order number, so the label starts visible; no click handler is attached. -/
def newButton (env : Env) (k : Nat) (i : Nat) : MemoryButton :=
  { id := i, color := ⌊env.rand k * 16777215⌋, order := i,
    labelShown := true, clickEnabled := false,
    positionAbsolute := false, pos := none }

/-- `GameEngine.generateButtons(n)`: pushes `n` fresh buttons with
`originalOrder = 1, …, n` in creation order. -/
def generateButtons (env : Env) (s : EngineState) (n : Nat) : EngineState :=
  { s with
    buttons := s.buttons ++ (List.range n).map (fun j => newButton env (s.rngIdx + j) (j + 1)),
    rngIdx := s.rngIdx + n }

/-- `GameEngine.startGame(n)`: reset, generate, and schedule
`scrambleSequence(n, n)` after the memorization pause. -/
def startGame (env : Env) (s : EngineState) (n : Nat) : EngineState :=
  let s1 := generateButtons env (resetGame s) n
  { s1 with pending := s1.pending ++ [TimerCb.startScramble n] }

/-- `GameEngine.getRandomPosition()`, using draws `k` and `k + 1` of the
random stream for `x` and `y`. -/
def getRandomPosition (env : Env) (k : Nat) : Int × Int :=
  let btnWidth : Int := 160
  let btnHeight : Int := 80
  let maxX : Int := env.innerWidth - btnWidth
  let maxY : Int := env.innerHeight - btnHeight
  let randomX : Int := max 0 ⌊env.rand k * (maxX : ℚ)⌋
  let randomY : Int := max 0 ⌊env.rand (k + 1) * (maxY : ℚ)⌋
  (randomX, randomY)

/-- The `this.buttons.forEach` body of `scrambleSequence`: switch each button
to absolute positioning and move it to a fresh random position (two draws per
button, starting at stream index `k`). -/
def relocateFrom (env : Env) : Nat → List MemoryButton → List MemoryButton
  | _, [] => []
  | k, b :: bs =>
      { b with positionAbsolute := true, pos := some (getRandomPosition env k) }
        :: relocateFrom env (k + 2) bs

/-- `GameEngine.prepareForUser()`: clear the scrambling flag, hide every
label, and arm every button's click handler (routed to `handleButtonClick`). -/
def prepareForUser (s : EngineState) : EngineState :=
  { s with isScrambling := false,
           buttons := s.buttons.map (fun b => { b with labelShown := false, clickEnabled := true }) }

/-- One synchronous invocation of `GameEngine.scrambleSequence(n, remaining)`:
either hand over to the user (countdown exhausted) or perform one relocation
pass and schedule the next invocation. -/
def scrambleSequence (env : Env) (s : EngineState) (n remaining : Nat) : EngineState :=
  if remaining ≤ 0 then prepareForUser s
  else
    let s1 := { s with isScrambling := true,
                       buttons := relocateFrom env s.rngIdx s.buttons,
                       rngIdx := s.rngIdx + 2 * s.buttons.length,
                       scrambleIterations := s.scrambleIterations + 1 }
    { s1 with pending := s1.pending ++ [TimerCb.scrambleStep n (remaining - 1)] }

/-- Run one timer callback body. -/
def runTimer (env : Env) (s : EngineState) : TimerCb → EngineState
  | TimerCb.startScramble n => scrambleSequence env s n n
  | TimerCb.scrambleStep n r => scrambleSequence env s n r

/-- The event loop delivers the earliest pending timer callback. -/
def fireNext (env : Env) (s : EngineState) : EngineState :=
  match s.pending with
  | [] => s
  | cb :: rest => runTimer env { s with pending := rest } cb

/-- Deliver up to `fuel` pending timer callbacks in order. -/
def fireAll (env : Env) : Nat → EngineState → EngineState
  | 0, s => s
  | fuel + 1, s =>
      match s.pending with
      | [] => s
      | _ :: _ => fireAll env fuel (fireNext env s)

/-- `GameEngine.revealAll()`: reveal the label of every button and disable
its clicks. -/
def revealAll (s : EngineState) : EngineState :=
  { s with buttons := s.buttons.map (fun b => { b with labelShown := true, clickEnabled := false }) }

/-- `GameEngine.handleButtonClick(btn)` where the clicked button is
`s.buttons[i]` (the handler closure captures the button object; we address it
by its index in `this.buttons`). -/
def handleButtonClick (s : EngineState) (i : Nat) : EngineState :=
  if s.isScrambling then s
  else
    match s.buttons[i]? with
    | none => s
    | some btn =>
      if btn.order = s.expectedOrder then
        let s1 := { s with buttons := s.buttons.set i { btn with labelShown := true, clickEnabled := false } }
        let s2 := if s1.expectedOrder = s1.buttons.length then { s1 with status := GameMessage.excellentMemory } else s1
        { s2 with expectedOrder := s2.expectedOrder + 1 }
      else
        revealAll { s with status := GameMessage.wrongOrder }

/-- Pointer activation on button `i`: the DOM invokes `element.onclick` only
when a handler is attached (`enableClick` sets it, `disableClick` removes it),
and the only handler ever attached routes to `handleButtonClick`. -/
def clickButton (s : EngineState) (i : Nat) : EngineState :=
  match s.buttons[i]? with
  | none => s
  | some btn => if btn.clickEnabled then handleButtonClick s i else s

/-- The value of the leading decimal-digit prefix. -/
def digitsVal (cs : List Char) : Nat :=
  cs.foldl (fun a c => a * 10 + (c.toNat - 48)) 0

/-- Whitespace skipped by `parseInt` before reading the number. -/
def isJsSpace (c : Char) : Bool :=
  c = ' ' ∨ c = '\t' ∨ c = '\n' ∨ c = '\r'

/-- Reading the optional sign: returns the sign factor and the rest. -/
def signSplit : List Char → Int × List Char
  | '-' :: t => (-1, t)
  | '+' :: t => (1, t)
  | cs => (1, cs)

/-- The JavaScript `parseInt(string)` (default radix), restricted to what a
numeric input field can supply: skip leading whitespace, read an optional
sign, then the longest prefix of decimal digits; `none` models `NaN` (no
digits found).  Trailing non-digit characters are ignored. -/
def parseIntJS (str : String) : Option Int :=
  let cs := str.toList.dropWhile isJsSpace
  let ds := (signSplit cs).2.takeWhile Char.isDigit
  if ds.isEmpty then none
  else some ((signSplit cs).1 * (digitsVal ds : Int))

/-- The `goBtn.onclick` closure built by `UIHandler.init`: parse the input
field's value, validate the range, and either clear the status and invoke the
`onStart` callback or show the invalid-input message.  The second component
lists the arguments of the `onStart` invocations this activation performed. -/
def goClick (s : EngineState) (value : String) : EngineState × List Int :=
  match parseIntJS value with
  | some val =>
      if 3 ≤ val ∧ val ≤ 7 then ({ s with status := GameMessage.empty }, [val])
      else ({ s with status := GameMessage.invalidInput }, [])
  | none => ({ s with status := GameMessage.invalidInput }, [])

/-! ## Theorems -/

/-- A fixed browser environment used by concrete evaluations: a 1000×800
viewport and a random stream that always draws 0. -/
def envW : Env := { innerWidth := 1000, innerHeight := 800, rand := fun _ => 0 }

/-- C8: every position computed by `getRandomPosition` satisfies
`0 ≤ x ≤ innerWidth - 160` and `0 ≤ y ≤ innerHeight - 80` whenever the
viewport is at least the 160×80 piece footprint, and the corresponding
coordinate is exactly 0 when the viewport is smaller than the footprint. -/
theorem spec_C8 (env : Env) (k : Nat)
    (hx0 : 0 ≤ env.rand k) (hx1 : env.rand k < 1)
    (hy0 : 0 ≤ env.rand (k + 1)) (hy1 : env.rand (k + 1) < 1) :
    (160 ≤ env.innerWidth →
      0 ≤ (getRandomPosition env k).1 ∧ (getRandomPosition env k).1 ≤ env.innerWidth - 160) ∧
    (80 ≤ env.innerHeight →
      0 ≤ (getRandomPosition env k).2 ∧ (getRandomPosition env k).2 ≤ env.innerHeight - 80) ∧
    (env.innerWidth < 160 → (getRandomPosition env k).1 = 0) ∧
    (env.innerHeight < 80 → (getRandomPosition env k).2 = 0) := by
  have bound : ∀ (r : ℚ) (m : Int), 0 ≤ r → r < 1 →
      (0 ≤ m → 0 ≤ max 0 ⌊r * (m : ℚ)⌋ ∧ max 0 ⌊r * (m : ℚ)⌋ ≤ m) ∧
      (m < 0 → max 0 ⌊r * (m : ℚ)⌋ = 0) := by
    intro r m hr0 hr1
    constructor
    · intro hm
      refine ⟨le_max_left _ _, max_le hm ?_⟩
      have h1 : r * (m : ℚ) ≤ (m : ℚ) := by
        calc r * (m : ℚ) ≤ 1 * (m : ℚ) := by
              apply mul_le_mul_of_nonneg_right hr1.le
              exact_mod_cast hm
          _ = (m : ℚ) := one_mul _
      calc ⌊r * (m : ℚ)⌋ ≤ ⌊(m : ℚ)⌋ := Int.floor_le_floor h1
        _ = m := Int.floor_intCast m
    · intro hm
      have h1 : r * (m : ℚ) ≤ 0 := by
        apply mul_nonpos_of_nonneg_of_nonpos hr0
        exact_mod_cast hm.le
      have h2 : ⌊r * (m : ℚ)⌋ ≤ 0 := by
        calc ⌊r * (m : ℚ)⌋ ≤ ⌊(0 : ℚ)⌋ := Int.floor_le_floor h1
          _ = 0 := Int.floor_zero
      exact max_eq_left h2
  refine ⟨?_, ?_, ?_, ?_⟩
  · intro h
    exact (bound (env.rand k) (env.innerWidth - 160) hx0 hx1).1 (by omega)
  · intro h
    exact (bound (env.rand (k + 1)) (env.innerHeight - 80) hy0 hy1).1 (by omega)
  · intro h
    exact (bound (env.rand k) (env.innerWidth - 160) hx0 hx1).2 (by omega)
  · intro h
    exact (bound (env.rand (k + 1)) (env.innerHeight - 80) hy0 hy1).2 (by omega)

/-- Witness for C8 with a concrete 1000×800 viewport and the draw 1/2. -/
theorem spec_C8_witness :
    (0 : ℚ) ≤ (1 : ℚ) / 2 ∧ ((1 : ℚ) / 2 < 1) ∧
    (0 ≤ (getRandomPosition { innerWidth := 1000, innerHeight := 800, rand := fun _ => 1/2 } 0).1 ∧
      (getRandomPosition { innerWidth := 1000, innerHeight := 800, rand := fun _ => 1/2 } 0).1 ≤ 1000 - 160) :=
  ⟨by norm_num, by norm_num,
    (spec_C8 { innerWidth := 1000, innerHeight := 800, rand := fun _ => 1/2 } 0
      (by norm_num) (by norm_num) (by norm_num) (by norm_num)).1 (by norm_num)⟩

/-- C9: a click delivered to `handleButtonClick` while the scrambling flag is
set leaves the entire engine state unchanged (in particular `expectedOrder`,
every button's label and handler, and the status message). -/
theorem spec_C9 (s : EngineState) (i : Nat) (h : s.isScrambling = true) :
    handleButtonClick s i = s := by
  simp [handleButtonClick, h]

/-- Witness for C9 on a concrete scrambling state. -/
theorem spec_C9_witness :
    ({ initEngine with isScrambling := true } : EngineState).isScrambling = true ∧
    handleButtonClick { initEngine with isScrambling := true } 0 =
      { initEngine with isScrambling := true } :=
  ⟨rfl, spec_C9 { initEngine with isScrambling := true } 0 rfl⟩

/-- The list remaining after `signSplit` is made of characters of the input. -/
theorem signSplit_subset (l : List Char) : ∀ c ∈ (signSplit l).2, c ∈ l := by
  unfold signSplit
  split
  · intro c hc; exact List.mem_cons_of_mem _ hc
  · intro c hc; exact List.mem_cons_of_mem _ hc
  · intro c hc; exact hc

/-- A string with no decimal digit at all parses to `NaN`. -/
theorem parseIntJS_none_of_no_digits (value : String)
    (h : ∀ c ∈ value.toList, c.isDigit = false) : parseIntJS value = none := by
  have h1 : ∀ c ∈ (signSplit (value.toList.dropWhile isJsSpace)).2, c.isDigit = false := by
    intro c hc
    exact h c ((List.dropWhile_sublist _).subset (signSplit_subset _ c hc))
  simp [parseIntJS]
  intro hx
  exact h1 _ (List.getElem_mem hx)

/-- C3: on each activation, a failed parse or a parsed value outside `[3, 7]`
(in particular any input without a digit) shows the invalid-input message and
never invokes `onStart`; a parsed value inside `[3, 7]` clears the status and
invokes `onStart` exactly once, with that value. -/
theorem spec_C3 (s : EngineState) (value : String) :
    (parseIntJS value = none →
      (goClick s value).1.status = GameMessage.invalidInput ∧ (goClick s value).2 = []) ∧
    (∀ v : Int, parseIntJS value = some v → (v < 3 ∨ 7 < v) →
      (goClick s value).1.status = GameMessage.invalidInput ∧ (goClick s value).2 = []) ∧
    (∀ v : Int, parseIntJS value = some v → 3 ≤ v → v ≤ 7 →
      (goClick s value).1.status = GameMessage.empty ∧ (goClick s value).2 = [v]) ∧
    ((∀ c ∈ value.toList, c.isDigit = false) →
      (goClick s value).1.status = GameMessage.invalidInput ∧ (goClick s value).2 = []) := by
  refine ⟨?_, ?_, ?_, ?_⟩
  · intro h
    simp [goClick, h]
  · intro v hv hrange
    have hcond : ¬(3 ≤ v ∧ v ≤ 7) := by omega
    simp [goClick, hv, hcond]
  · intro v hv h3 h7
    simp [goClick, hv, h3, h7]
  · intro h
    simp [goClick, parseIntJS_none_of_no_digits value h]

/-- Witness for C3: the digit input "5" starts a round of 5; the letter input
"abc" shows the invalid-input message and starts nothing. -/
theorem spec_C3_witness :
    parseIntJS "5" = some 5 ∧
    ((goClick initEngine "5").1.status = GameMessage.empty ∧ (goClick initEngine "5").2 = [5]) ∧
    ((goClick initEngine "abc").1.status = GameMessage.invalidInput ∧
      (goClick initEngine "abc").2 = []) :=
  ⟨by decide,
   (spec_C3 initEngine "5").2.2.1 5 (by decide) (by decide) (by decide),
   (spec_C3 initEngine "abc").2.2.2 (by decide)⟩

/-- C5: for every `n` in `[3, 7]`, `startGame(n)` creates exactly `n` pieces
whose `originalOrder` values are `1, …, n` in creation order — hence the set
`{1..n}` with each value occurring exactly once. -/
theorem spec_C5 (env : Env) (s : EngineState) (n : Nat) (h3 : 3 ≤ n) (h7 : n ≤ 7) :
    (startGame env s n).buttons.length = n ∧
    (startGame env s n).buttons.map (fun b => b.order) = (List.range n).map (fun j => j + 1) ∧
    ((startGame env s n).buttons.map (fun b => b.order)).Nodup := by
  have hmap : (startGame env s n).buttons.map (fun b => b.order)
      = (List.range n).map (fun j => j + 1) := by
    simp [startGame, generateButtons, resetGame, newButton, List.map_map, Function.comp]
  refine ⟨?_, hmap, ?_⟩
  · simp [startGame, generateButtons, resetGame]
  · rw [hmap]
    exact List.Nodup.map (fun a b hab => by omega) (List.nodup_range n)

/-- Witness for C5 at `n = 3`. -/
theorem spec_C5_witness :
    3 ≤ 3 ∧ 3 ≤ 7 ∧ (startGame envW initEngine 3).buttons.map (fun b => b.order) = [1, 2, 3] :=
  ⟨by decide, by decide, by exact (spec_C5 envW initEngine 3 (by decide) (by decide)).2.1⟩

/-- Setting an index of a list to the element already there is the identity. -/
theorem set_self_eq {α : Type} (m : List α) (i : Nat) (h : i < m.length) :
    m.set i m[i] = m := by
  apply List.ext_getElem?
  intro j
  by_cases hij : i = j
  · subst hij
    simp [h]
  · simp [hij]

/-- The round invariant after `k` correct clicks out of `n`: pieces before
position `k` are revealed and disabled, the rest hidden and clickable, the
counter reads `k + 1`, and the win message is up exactly when `k = n`. -/
def ProgressAt (n k : Nat) (s : EngineState) : Prop :=
  s.buttons.length = n ∧
  s.isScrambling = false ∧
  s.expectedOrder = k + 1 ∧
  s.status = (if k = n then GameMessage.excellentMemory else GameMessage.empty) ∧
  ∀ i : Fin s.buttons.length,
    (s.buttons.get i).order = i.val + 1 ∧
    (i.val < k → (s.buttons.get i).labelShown = true ∧ (s.buttons.get i).clickEnabled = false) ∧
    (k ≤ i.val → (s.buttons.get i).labelShown = false ∧ (s.buttons.get i).clickEnabled = true)

instance (n k : Nat) (s : EngineState) : Decidable (ProgressAt n k s) := by
  unfold ProgressAt
  infer_instance

/-- Clicking the piece at position `k` (originalOrder `k + 1`) in a round that
has made `k` correct clicks advances the round invariant by one. -/
theorem progress_click (n k : Nat) (s : EngineState)
    (h : ProgressAt n k s) (hk : k < n) :
    ProgressAt n (k + 1) (clickButton s k) := by
  obtain ⟨hlen, hscr, hexp, hstat, hbt⟩ := h
  have hk' : k < s.buttons.length := by omega
  have hb := hbt ⟨k, hk'⟩
  simp only [List.get_eq_getElem] at hb
  obtain ⟨hord, _, hge⟩ := hb
  have hgek := hge (le_refl k)
  have hsome : s.buttons[k]? = some s.buttons[k] := List.getElem?_eq_getElem hk'
  have hres : clickButton s k =
      { s with buttons := s.buttons.set k
                 { s.buttons[k] with labelShown := true, clickEnabled := false },
               status := if k + 1 = n then GameMessage.excellentMemory else s.status,
               expectedOrder := s.expectedOrder + 1 } := by
    by_cases hwin : k + 1 = n
    · simp [clickButton, hsome, hgek.2, handleButtonClick, hscr, hord, hexp,
        List.length_set, hlen, hwin]
    · simp [clickButton, hsome, hgek.2, handleButtonClick, hscr, hord, hexp,
        List.length_set, hlen, hwin]
  rw [hres]
  refine ⟨by simp [hlen], by simp [hscr], by simp [hexp], ?_, ?_⟩
  · by_cases hwin : k + 1 = n
    · simp [hwin]
    · have hkn : k ≠ n := by omega
      simp [hwin, hstat, hkn]
  · intro i
    have hi : i.val < s.buttons.length := by
      have := i.isLt
      simpa using this
    simp only [List.get_eq_getElem]
    by_cases hik : k = i.val
    · simp only [hik] at hord ⊢
      simp only [List.getElem_set_self]
      refine ⟨by simpa using hord, ?_, ?_⟩
      · intro _; simp
      · intro hcon; omega
    · simp only [List.getElem_set_ne hik]
      have hb2 := hbt ⟨i.val, hi⟩
      simp only [List.get_eq_getElem] at hb2
      obtain ⟨hord2, hlt2, hge2⟩ := hb2
      refine ⟨by simpa using hord2, ?_, ?_⟩
      · intro hlt
        exact hlt2 (by omega)
      · intro hge
        exact hge2 (by omega)

/-- C1: in a round of `n` pieces awaiting input, clicking the pieces in
increasing originalOrder reveals each clicked piece in turn, disables its
further clicks, increments `expectedOrder` by one per click, shows the win
message exactly after the `n`-th correct click, and never shows the
wrong-order message at any prefix of the run. -/
theorem spec_C1 (n : Nat) (s : EngineState) (h : ProgressAt n 0 s) :
    ∀ k, k ≤ n → ProgressAt n k ((List.range k).foldl clickButton s) := by
  intro k
  induction k with
  | zero =>
      intro _
      simpa using h
  | succ k ih =>
      intro hk
      have h1 := ih (by omega)
      have h2 := progress_click n k _ h1 (by omega)
      rw [List.range_succ, List.foldl_append]
      simpa using h2

/-- Witness for C1: a full concrete round of 3 pieces, driven from
`startGame` through the scramble chain and the three correct clicks. -/
theorem spec_C1_witness :
    ProgressAt 3 0 (fireAll envW 4 (startGame envW initEngine 3)) ∧
    ProgressAt 3 3 ((List.range 3).foldl clickButton (fireAll envW 4 (startGame envW initEngine 3))) :=
  ⟨by decide, spec_C1 3 (fireAll envW 4 (startGame envW initEngine 3)) (by decide) 3 (by decide)⟩

/-- When every button's handler is detached, pointer activation anywhere is a
no-op. -/
theorem click_noop_of_all_disabled (s : EngineState)
    (h : ∀ c ∈ s.buttons, c.clickEnabled = false) (j : Nat) :
    clickButton s j = s := by
  unfold clickButton
  cases hb : s.buttons[j]? with
  | none => rfl
  | some c =>
      have hc := h c (List.getElem?_mem hb)
      simp [hc]

/-- A whole sequence of clicks on a fully disabled board changes nothing. -/
theorem clicks_noop_of_all_disabled (s : EngineState)
    (h : ∀ c ∈ s.buttons, c.clickEnabled = false) :
    ∀ js : List Nat, js.foldl clickButton s = s := by
  intro js
  induction js with
  | nil => rfl
  | cons j t ih =>
      rw [List.foldl_cons, click_noop_of_all_disabled s h j]
      exact ih

/-- C2: clicking an armed piece whose originalOrder differs from the current
`expectedOrder` immediately reveals every piece's label, disables every
piece's clicks, and shows the wrong-order message; every sequence of
subsequent clicks leaves the state (and the status) untouched. -/
theorem spec_C2 (s : EngineState) (i : Nat) (b : MemoryButton)
    (hscr : s.isScrambling = false) (hb : s.buttons[i]? = some b)
    (hen : b.clickEnabled = true) (hw : b.order ≠ s.expectedOrder) :
    (∀ c ∈ (clickButton s i).buttons, c.labelShown = true ∧ c.clickEnabled = false) ∧
    (clickButton s i).status = GameMessage.wrongOrder ∧
    (∀ js : List Nat, js.foldl clickButton (clickButton s i) = clickButton s i) := by
  have hcb : clickButton s i = revealAll { s with status := GameMessage.wrongOrder } := by
    simp [clickButton, hb, hen, handleButtonClick, hscr, hw]
  have hall : ∀ c ∈ (clickButton s i).buttons, c.labelShown = true ∧ c.clickEnabled = false := by
    intro c hc
    rw [hcb] at hc
    simp only [revealAll, List.mem_map] at hc
    obtain ⟨a, _, rfl⟩ := hc
    exact ⟨rfl, rfl⟩
  refine ⟨hall, ?_, ?_⟩
  · rw [hcb]
    rfl
  · exact clicks_noop_of_all_disabled _ (fun c hc => (hall c hc).2)

/-- A concrete armed piece used by witnesses. -/
def demoButton (o : Nat) : MemoryButton :=
  { id := o, color := 0, order := o, labelShown := false, clickEnabled := true,
    positionAbsolute := true, pos := some (0, 0) }

/-- A concrete 3-piece round awaiting input, used by witnesses. -/
def demoState : EngineState :=
  { buttons := [demoButton 1, demoButton 2, demoButton 3], expectedOrder := 1,
    isScrambling := false, status := GameMessage.empty, pending := [], rngIdx := 3,
    scrambleIterations := 3 }

/-- Witness for C2: in a concrete armed 3-piece round, the first click lands
on the piece with originalOrder 2 while `expectedOrder` is 1. -/
theorem spec_C2_witness :
    demoState.isScrambling = false ∧
    demoState.buttons[1]? = some (demoButton 2) ∧
    (demoButton 2).clickEnabled = true ∧
    (demoButton 2).order ≠ demoState.expectedOrder ∧
    (clickButton demoState 1).status = GameMessage.wrongOrder :=
  ⟨by decide, by decide, by decide, by decide,
    (spec_C2 demoState 1 (demoButton 2)
      (by decide) (by decide) (by decide) (by decide)).2.1⟩

/-- Case analysis of one pointer activation: either nothing happens (no such
button, or its handler is detached, or the engine is scrambling), or a correct
click rewrites exactly the clicked button and bumps the counter, or a wrong
click ends the round through `revealAll`. -/
theorem clickButton_cases (s : EngineState) (i : Nat) :
    clickButton s i = s ∨
    (∃ c, s.buttons[i]? = some c ∧ c.clickEnabled = true ∧ s.isScrambling = false ∧
      ((c.order = s.expectedOrder ∧
        clickButton s i =
          { s with buttons := s.buttons.set i { c with labelShown := true, clickEnabled := false },
                   status := if s.expectedOrder = s.buttons.length then GameMessage.excellentMemory
                             else s.status,
                   expectedOrder := s.expectedOrder + 1 }) ∨
       (c.order ≠ s.expectedOrder ∧
        clickButton s i = revealAll { s with status := GameMessage.wrongOrder }))) := by
  cases hb : s.buttons[i]? with
  | none => exact Or.inl (by simp [clickButton, hb])
  | some c =>
    by_cases hen : c.clickEnabled = true
    · by_cases hscr : s.isScrambling = true
      · exact Or.inl (by simp [clickButton, hb, hen, handleButtonClick, hscr])
      · have hscr' : s.isScrambling = false := by
          revert hscr; cases s.isScrambling <;> simp
        right
        refine ⟨c, rfl, hen, hscr', ?_⟩
        by_cases hord : c.order = s.expectedOrder
        · left
          refine ⟨hord, ?_⟩
          by_cases hwin : s.expectedOrder = s.buttons.length
          · simp [clickButton, hb, hen, handleButtonClick, hscr', hord, hwin]
          · simp [clickButton, hb, hen, handleButtonClick, hscr', hord, hwin]
        · right
          refine ⟨hord, ?_⟩
          simp [clickButton, hb, hen, handleButtonClick, hscr', hord]
    · have hen' : c.clickEnabled = false := by
        revert hen; cases c.clickEnabled <;> simp
      exact Or.inl (by simp [clickButton, hb, hen'])

/-- Round-state well-formedness: every button's originalOrder lies in
`1..n` where `n` is the number of buttons. -/
def OrdersValid (s : EngineState) : Prop :=
  ∀ b ∈ s.buttons, 1 ≤ b.order ∧ b.order ≤ s.buttons.length

instance (s : EngineState) : Decidable (OrdersValid s) := by
  unfold OrdersValid
  infer_instance

/-- One click keeps the piece count and order multiset, moves `expectedOrder`
by zero or one, respects the `n + 1` ceiling, and preserves well-formedness. -/
theorem clickStep_props (s : EngineState) (i : Nat)
    (hv : OrdersValid s) (he : s.expectedOrder ≤ s.buttons.length + 1) :
    ((clickButton s i).expectedOrder = s.expectedOrder ∨
      (clickButton s i).expectedOrder = s.expectedOrder + 1) ∧
    (clickButton s i).buttons.length = s.buttons.length ∧
    (clickButton s i).expectedOrder ≤ (clickButton s i).buttons.length + 1 ∧
    OrdersValid (clickButton s i) := by
  rcases clickButton_cases s i with h | ⟨c, hb, hen, hscr, ⟨hord, h⟩ | ⟨hord, h⟩⟩
  · rw [h]
    exact ⟨Or.inl rfl, rfl, he, hv⟩
  · have hc : c ∈ s.buttons := List.getElem?_mem hb
    have hcle : c.order ≤ s.buttons.length := (hv c hc).2
    rw [h]
    refine ⟨Or.inr rfl, by simp, ?_, ?_⟩
    · simp only [List.length_set]
      omega
    · intro b hbmem
      simp only [List.length_set]
      rcases List.mem_or_eq_of_mem_set hbmem with hmem | rfl
      · exact hv b hmem
      · simpa using hv c hc
  · rw [h]
    refine ⟨Or.inl rfl, by simp [revealAll], by simp [revealAll]; omega, ?_⟩
    intro b hbmem
    simp only [revealAll, List.mem_map, List.length_map] at hbmem ⊢
    obtain ⟨a, ha, rfl⟩ := hbmem
    simpa using hv a ha

/-- Along any sequence of clicks, `expectedOrder` is monotone and bounded by
`n + 1`, and the board size never changes. -/
theorem clicks_props (js : List Nat) :
    ∀ s : EngineState, OrdersValid s → s.expectedOrder ≤ s.buttons.length + 1 →
      OrdersValid (js.foldl clickButton s) ∧
      s.expectedOrder ≤ (js.foldl clickButton s).expectedOrder ∧
      (js.foldl clickButton s).expectedOrder ≤ (js.foldl clickButton s).buttons.length + 1 ∧
      (js.foldl clickButton s).buttons.length = s.buttons.length := by
  induction js with
  | nil =>
      intro s h1 h2
      exact ⟨h1, le_refl _, h2, rfl⟩
  | cons j t ih =>
      intro s h1 h2
      have hs := clickStep_props s j h1 h2
      have ht := ih (clickButton s j) hs.2.2.2 hs.2.2.1
      rw [List.foldl_cons]
      refine ⟨ht.1, ?_, ht.2.2.1, by rw [ht.2.2.2, hs.2.1]⟩
      have h01 : s.expectedOrder ≤ (clickButton s j).expectedOrder := by
        rcases hs.1 with h | h <;> omega
      exact le_trans h01 ht.2.1

/-- C7: in a well-formed round, `expectedOrder` starts at 1 after
`startGame`, each click leaves it unchanged or adds exactly one, and along any
click sequence it is monotone and never exceeds `n + 1` (so no clicks after a
win or loss can push it further). -/
theorem spec_C7 (s : EngineState)
    (hv : OrdersValid s) (he : s.expectedOrder ≤ s.buttons.length + 1) :
    (∀ (env : Env) (s0 : EngineState) (n : Nat), (startGame env s0 n).expectedOrder = 1) ∧
    (∀ i, (clickButton s i).expectedOrder = s.expectedOrder ∨
          (clickButton s i).expectedOrder = s.expectedOrder + 1) ∧
    (∀ js : List Nat,
      s.expectedOrder ≤ (js.foldl clickButton s).expectedOrder ∧
      (js.foldl clickButton s).expectedOrder ≤ s.buttons.length + 1) := by
  refine ⟨?_, ?_, ?_⟩
  · intro env s0 n
    simp [startGame, generateButtons, resetGame]
  · intro i
    exact (clickStep_props s i hv he).1
  · intro js
    have h := clicks_props js s hv he
    refine ⟨h.2.1, ?_⟩
    have := h.2.2.1
    rw [h.2.2.2] at this
    exact this

/-- Witness for C7 on the concrete armed 3-piece round. -/
theorem spec_C7_witness :
    OrdersValid demoState ∧ demoState.expectedOrder ≤ demoState.buttons.length + 1 ∧
    ((clickButton demoState 0).expectedOrder = demoState.expectedOrder ∨
      (clickButton demoState 0).expectedOrder = demoState.expectedOrder + 1) :=
  ⟨by decide, by decide, (spec_C7 demoState (by decide) (by decide)).2.1 0⟩

/-- During input, every piece already clicked correctly (originalOrder below
`expectedOrder`) has its handler detached. -/
def DisabledBelow (s : EngineState) : Prop :=
  ∀ i : Fin s.buttons.length,
    (s.buttons.get i).order < s.expectedOrder → (s.buttons.get i).clickEnabled = false

instance (s : EngineState) : Decidable (DisabledBelow s) := by
  unfold DisabledBelow
  infer_instance


/-- Index-based characterization of `DisabledBelow`. -/
theorem disabledBelow_iff (s : EngineState) :
    DisabledBelow s ↔ ∀ (i : Nat) (b : MemoryButton), s.buttons[i]? = some b →
      b.order < s.expectedOrder → b.clickEnabled = false := by
  constructor
  · intro h i b hb hord
    obtain ⟨hi, hgi⟩ := List.getElem?_eq_some_iff.1 hb
    have := h ⟨i, hi⟩
    simp only [List.get_eq_getElem, hgi] at this
    exact this hord
  · intro h j hord
    simp only [List.get_eq_getElem] at hord ⊢
    exact h j.val _ (List.getElem?_eq_getElem j.isLt) hord

/-- C10: a piece whose handler is detached is inert under pointer activation;
in particular, with unique orders and the already-clicked pieces disabled, a
click on a piece with originalOrder below `expectedOrder` changes nothing (so
it can never reach the wrong-order branch), and both properties are preserved
by every further click. -/
theorem spec_C10 (s : EngineState) (hd : DisabledBelow s)
    (hnd : (s.buttons.map (fun b => b.order)).Nodup) :
    (∀ i b, s.buttons[i]? = some b → b.clickEnabled = false → clickButton s i = s) ∧
    (∀ (i : Nat) (h : i < s.buttons.length), s.buttons[i].order < s.expectedOrder →
      clickButton s i = s) ∧
    (∀ i, DisabledBelow (clickButton s i) ∧
      ((clickButton s i).buttons.map (fun b => b.order)).Nodup) := by
  have noop : ∀ i b, s.buttons[i]? = some b → b.clickEnabled = false → clickButton s i = s := by
    intro i b hb hdis
    simp [clickButton, hb, hdis]
  refine ⟨noop, ?_, ?_⟩
  · intro i h hlt
    have hdis := hd ⟨i, h⟩ (by simpa using hlt)
    exact noop i s.buttons[i] (List.getElem?_eq_getElem h) (by simpa using hdis)
  · intro i
    rcases clickButton_cases s i with h | ⟨c, hb, hen, hscr, ⟨hord, h⟩ | ⟨hord, h⟩⟩
    · rw [h]
      exact ⟨hd, hnd⟩
    · obtain ⟨hi, hgi⟩ := List.getElem?_eq_some_iff.1 hb
      have him : i < (s.buttons.map (fun b => b.order)).length := by
        simpa using hi
      have hmapset : (clickButton s i).buttons.map (fun b => b.order)
          = s.buttons.map (fun b => b.order) := by
        rw [h]
        have hgm : c.order = (s.buttons.map (fun b => b.order)).get ⟨i, him⟩ := by
          simp [hgi]
        calc (s.buttons.set i { c with labelShown := true, clickEnabled := false }).map
              (fun b => b.order)
            = (s.buttons.map (fun b => b.order)).set i c.order := by
              simp [List.map_set]
          _ = (s.buttons.map (fun b => b.order)).set i
                ((s.buttons.map (fun b => b.order)).get ⟨i, him⟩) := by rw [← hgm]
          _ = s.buttons.map (fun b => b.order) := by
              simpa using set_self_eq (s.buttons.map (fun b => b.order)) i him
      refine ⟨(disabledBelow_iff _).2 ?_, by rw [hmapset]; exact hnd⟩
      intro j b hjb hjord
      rw [h] at hjb hjord
      by_cases hij : i = j
      · rw [← hij, List.getElem?_set_self hi] at hjb
        obtain rfl : ({ c with labelShown := true, clickEnabled := false } : MemoryButton) = b :=
          Option.some.inj hjb
        rfl
      · rw [List.getElem?_set_ne hij] at hjb
        obtain ⟨hj, hgj⟩ := List.getElem?_eq_some_iff.1 hjb
        have hjord' : b.order < s.expectedOrder + 1 := by simpa using hjord
        by_cases hje : b.order = s.expectedOrder
        · exfalso
          have hjm : j < (s.buttons.map (fun b => b.order)).length := by
            simpa using hj
          have heq : (s.buttons.map (fun b => b.order)).get ⟨i, him⟩
              = (s.buttons.map (fun b => b.order)).get ⟨j, hjm⟩ := by
            simp [hgi, hgj, hord, hje]
          have hinj := (List.Nodup.get_inj_iff hnd).1 heq
          exact hij (by simpa using congrArg Fin.val hinj)
        · have hblt : b.order < s.expectedOrder := by omega
          exact (disabledBelow_iff s).1 hd j b hjb hblt
    · rw [h]
      constructor
      · apply (disabledBelow_iff _).2
        intro j b hjb _
        simp only [revealAll, List.getElem?_map] at hjb
        cases hg : s.buttons[j]? with
        | none => rw [hg] at hjb; simp at hjb
        | some a =>
            rw [hg] at hjb
            obtain rfl : ({ a with labelShown := true, clickEnabled := false } : MemoryButton) = b := by
              simpa using hjb
            rfl
      · have hcomp : (fun b : MemoryButton =>
            ({ b with labelShown := true, clickEnabled := false } : MemoryButton).order)
            = fun b : MemoryButton => b.order := rfl
        simp only [revealAll, List.map_map, Function.comp_def, hcomp]
        exact hnd

/-- Witness for C10 on the concrete armed 3-piece round. -/
theorem spec_C10_witness :
    DisabledBelow demoState ∧ (demoState.buttons.map (fun b => b.order)).Nodup ∧
    DisabledBelow (clickButton demoState 0) :=
  ⟨by decide, by decide, ((spec_C10 demoState (by decide) (by decide)).2.2 0).1⟩

/-- A relocation pass does not add or remove pieces. -/
theorem relocateFrom_length (env : Env) (l : List MemoryButton) :
    ∀ k, (relocateFrom env k l).length = l.length := by
  induction l with
  | nil => intro k; rfl
  | cons b bs ih => intro k; simp [relocateFrom, ih]

/-- A relocation pass keeps every piece's originalOrder. -/
theorem relocateFrom_orderMap (env : Env) (l : List MemoryButton) :
    ∀ k, (relocateFrom env k l).map (fun b => b.order) = l.map (fun b => b.order) := by
  induction l with
  | nil => intro k; rfl
  | cons b bs ih => intro k; simp [relocateFrom, ih]

/-- Running a pending `scrambleSequence` continuation with countdown `r` to
completion takes exactly `r + 1` timer deliveries, performs exactly `r`
relocation passes, never changes `expectedOrder`, the status, or the order
multiset, and ends with the scrambling flag cleared, the queue empty, and
every piece hidden and armed (the effect of `prepareForUser`). -/
theorem scrambleChain (env : Env) (n : Nat) :
    ∀ (r : Nat) (s : EngineState), s.pending = [TimerCb.scrambleStep n r] →
      (fireAll env (r + 1) s).scrambleIterations = s.scrambleIterations + r ∧
      (fireAll env (r + 1) s).isScrambling = false ∧
      (fireAll env (r + 1) s).pending = [] ∧
      (fireAll env (r + 1) s).expectedOrder = s.expectedOrder ∧
      (fireAll env (r + 1) s).status = s.status ∧
      (fireAll env (r + 1) s).buttons.map (fun b => b.order)
          = s.buttons.map (fun b => b.order) ∧
      (∀ b ∈ (fireAll env (r + 1) s).buttons, b.labelShown = false ∧ b.clickEnabled = true) := by
  intro r
  induction r with
  | zero =>
      intro s hp
      have h1 : fireAll env 1 s = prepareForUser { s with pending := [] } := by
        simp [fireAll, hp, fireNext, runTimer, scrambleSequence]
      rw [h1]
      refine ⟨rfl, rfl, ?_, rfl, rfl, ?_, ?_⟩
      · simp [prepareForUser]
      · simp [prepareForUser, List.map_map]
      · intro b hb
        simp only [prepareForUser, List.mem_map] at hb
        obtain ⟨a, _, rfl⟩ := hb
        exact ⟨rfl, rfl⟩
  | succ r ih =>
      intro s hp
      have hgoal : fireAll env (r + 1 + 1) s
          = fireAll env (r + 1)
              { s with isScrambling := true,
                       buttons := relocateFrom env s.rngIdx s.buttons,
                       rngIdx := s.rngIdx + 2 * s.buttons.length,
                       scrambleIterations := s.scrambleIterations + 1,
                       pending := [TimerCb.scrambleStep n r] } := by
        simp [fireAll, hp, fireNext, runTimer, scrambleSequence]
      have key := ih
        { s with isScrambling := true,
                 buttons := relocateFrom env s.rngIdx s.buttons,
                 rngIdx := s.rngIdx + 2 * s.buttons.length,
                 scrambleIterations := s.scrambleIterations + 1,
                 pending := [TimerCb.scrambleStep n r] } rfl
      obtain ⟨k1, k2, k3, k4, k5, k6, k7⟩ := key
      rw [hgoal]
      refine ⟨?_, k2, k3, k4, k5, ?_, k7⟩
      · rw [k1]
        show s.scrambleIterations + 1 + r = s.scrambleIterations + (r + 1)
        omega
      · rw [k6]
        exact relocateFrom_orderMap env s.buttons s.rngIdx

/-- `startGame` lays the buttons out with originalOrder `1, …, n`. -/
theorem startGame_orderMap (env : Env) (s : EngineState) (n : Nat) :
    (startGame env s n).buttons.map (fun b => b.order) = (List.range n).map (fun j => j + 1) := by
  simp [startGame, generateButtons, resetGame, newButton, List.map_map, Function.comp]

/-- C6: for every `n` in `[3, 7]`, the countdown started as
`scrambleSequence(n, n)` terminates after exactly `n + 1` timer deliveries,
performing exactly `n` relocation passes, and hands the round to the user via
`prepareForUser`: scrambling flag off, timer queue empty, `expectedOrder`
still 1, all `n` pieces hidden and armed with their orders intact. -/
theorem spec_C6 (env : Env) (s : EngineState) (n : Nat) (h3 : 3 ≤ n) (h7 : n ≤ 7)
    (hp : s.pending = []) :
    (fireAll env (n + 1) (startGame env s n)).scrambleIterations
        = (startGame env s n).scrambleIterations + n ∧
    (fireAll env (n + 1) (startGame env s n)).isScrambling = false ∧
    (fireAll env (n + 1) (startGame env s n)).pending = [] ∧
    (fireAll env (n + 1) (startGame env s n)).expectedOrder = 1 ∧
    (fireAll env (n + 1) (startGame env s n)).buttons.length = n ∧
    (∀ b ∈ (fireAll env (n + 1) (startGame env s n)).buttons,
        b.labelShown = false ∧ b.clickEnabled = true) ∧
    (fireAll env (n + 1) (startGame env s n)).buttons.map (fun b => b.order)
        = (List.range n).map (fun j => j + 1) := by
  have hgp : (startGame env s n).pending = [TimerCb.startScramble n] := by
    simp [startGame, generateButtons, resetGame, hp]
  have hswap : fireAll env (n + 1) (startGame env s n)
      = fireAll env (n + 1) { startGame env s n with pending := [TimerCb.scrambleStep n n] } := by
    simp [fireAll, hgp, fireNext, runTimer]
  have key := scrambleChain env n n
    { startGame env s n with pending := [TimerCb.scrambleStep n n] } rfl
  obtain ⟨k1, k2, k3, k4, k5, k6, k7⟩ := key
  have h6 : (fireAll env (n + 1)
      { startGame env s n with pending := [TimerCb.scrambleStep n n] }).buttons.map
        (fun b => b.order) = (List.range n).map (fun j => j + 1) := by
    rw [k6]
    exact startGame_orderMap env s n
  rw [hswap]
  refine ⟨k1, k2, k3, k4, ?_, k7, h6⟩
  have := congrArg List.length h6
  simpa using this

/-- Witness for C6 at `n = 3` from the initial engine state. -/
theorem spec_C6_witness :
    3 ≤ 3 ∧ 3 ≤ 7 ∧ initEngine.pending = [] ∧
    (fireAll envW 4 (startGame envW initEngine 3)).scrambleIterations
        = (startGame envW initEngine 3).scrambleIterations + 3 :=
  ⟨by decide, by decide, rfl, (spec_C6 envW initEngine 3 (by decide) (by decide) rfl).1⟩

/-- C4 evaluated on a failing run: start a 3-piece round, let the memorize
timer fire (first relocation pass, which schedules `scrambleSequence(3, 2)`),
then start a 4-piece round while that continuation is still queued.  The new
round begins with the scrambling flag off and all four fresh pieces in normal
layout flow, but the stale continuation from the superseded round is still
pending, and delivering it mutates the new round's state: it raises the
scrambling flag, switches all four new pieces to absolute positioning
(relocating them), and performs a relocation pass — exactly what a
round-token/staleness check is supposed to prevent. -/
theorem spec_C4 :
    (startGame envW (fireNext envW (startGame envW initEngine 3)) 4).isScrambling = false ∧
    (startGame envW (fireNext envW (startGame envW initEngine 3)) 4).pending
        = [TimerCb.scrambleStep 3 2, TimerCb.startScramble 4] ∧
    (∀ b ∈ (startGame envW (fireNext envW (startGame envW initEngine 3)) 4).buttons,
        b.positionAbsolute = false) ∧
    (fireNext envW (startGame envW (fireNext envW (startGame envW initEngine 3)) 4)).isScrambling
        = true ∧
    (fireNext envW (startGame envW (fireNext envW (startGame envW initEngine 3)) 4)).buttons.length
        = 4 ∧
    (∀ b ∈ (fireNext envW (startGame envW (fireNext envW (startGame envW initEngine 3)) 4)).buttons,
        b.positionAbsolute = true) ∧
    (fireNext envW (startGame envW (fireNext envW (startGame envW initEngine 3)) 4)).scrambleIterations
        = 2 := by
  decide
